import Mathlib

/-!
# Verification of the todo-cli markdown checkbox codec and item operations

A shallow embedding of `pkg/todo.go` and the list-delete guard of `main.go`.
Text is modelled as `List Char` (Go strings are sequences of runes for the
operations involved).  The regex
`^- \[([ x])\] (.+?)(?:\s+\(completed:\s+(.+?)\))?$` used by `ParseTodoFile`
is embedded by an explicit matcher that follows Go's leftmost-first
(Perl-style) backtracking order: the lazy `(.+?)` grows from the shortest
candidate, and at each candidate the optional annotation group is tried first
(greedy `\s+`, literal `(completed:`, greedy `\s+`, lazy capture, literal `)`
at end of line).
-/

set_option maxRecDepth 4000

/-- The whitespace predicate of Go's `unicode.IsSpace`, used by
`strings.TrimSpace` in `ParseTodoFile`. -/
def goIsSpace (c : Char) : Bool :=
  c = ' ' || c = '\t' || c = '\n' || c = Char.ofNat 11 || c = Char.ofNat 12 ||
  c = '\r' || c = Char.ofNat 0x85 || c = Char.ofNat 0xA0 || c = Char.ofNat 0x1680 ||
  (Char.ofNat 0x2000 ≤ c && c ≤ Char.ofNat 0x200A) || c = Char.ofNat 0x2028 ||
  c = Char.ofNat 0x2029 || c = Char.ofNat 0x202F || c = Char.ofNat 0x205F ||
  c = Char.ofNat 0x3000

/-- The character class `\s` of Go's regexp package (RE2 Perl class):
`[\t\n\f\r ]`. -/
def reIsSpace (c : Char) : Bool :=
  c = '\t' || c = '\n' || c = Char.ofNat 12 || c = '\r' || c = ' '

/-- `strings.TrimSpace`, applied by `ParseTodoFile` to each scanned line. -/
def goTrimSpace (s : List Char) : List Char :=
  ((s.dropWhile goIsSpace).reverse.dropWhile goIsSpace).reverse

/-- The literal `(completed:` that anchors the optional annotation group of
the checkbox regex. -/
def annKey : List Char := '(' :: 'c' :: 'o' :: 'm' :: 'p' :: 'l' :: 'e' :: 't' :: 'e' :: 'd' :: ':' :: []

/-- `containsSub pat l` holds when `pat` occurs as a contiguous run inside
`l` (used to state the side conditions of the round-trip property). -/
def containsSub (pat : List Char) : List Char → Bool
  | [] => pat.isEmpty
  | l@(_ :: t) => (l.take pat.length == pat) || containsSub pat t

/-- Matcher for the suffix regex `\s+\(completed:\s+(.+?)\)$` against the text
remaining after a candidate for the lazy `(.+?)` text group.  Returns the
captured timestamp text when the annotation group matches to end of line.
The greedy `\s+` takes the maximal whitespace run (shorter runs leave a
whitespace character where the literal `(` is required); the inner greedy
`\s+` backs off by one character when everything up to the final `)` is
whitespace, because the lazy capture still needs one character. -/
def matchAnnot (s : List Char) : Option (List Char) :=
  let w := s.takeWhile reIsSpace
  let rest := s.dropWhile reIsSpace
  if w.isEmpty then none
  else if rest.take 11 == annKey then
    let u := rest.drop 11
    if u.getLast? == some ')' then
      let body := u.dropLast
      let k := min (body.takeWhile reIsSpace).length (body.length - 1)
      if 1 ≤ k then some (body.drop k) else none
    else none
  else none

/-- The lazy text group `(.+?)`: starting from the shortest nonempty prefix,
return the first split whose remainder matches the annotation group; if no
remainder does, the whole input is the text (the optional group matches
empty at end of line). `acc` holds the reversed prefix consumed so far. -/
def scanItemText (acc : List Char) : List Char → List Char × Option (List Char)
  | [] => (acc.reverse, none)
  | c :: t =>
    match matchAnnot t with
    | some ts => ((c :: acc).reverse, some ts)
    | none => scanItemText (c :: acc) t

/-- The checkbox regex `^- \[([ x])\] (.+?)(?:\s+\(completed:\s+(.+?)\))?$`
applied to a (trimmed) line: returns `(completed, text, timestamp text?)`.
The line must start with the six literal characters `- [`, a space or `x`,
`] `, and the lazy text group needs at least one further character. -/
def matchCheckboxLine (line : List Char) : Option (Bool × List Char × Option (List Char)) :=
  match line with
  | a :: b :: c :: d :: e :: f :: rest =>
    if a = '-' ∧ b = ' ' ∧ c = '[' ∧ (d = ' ' ∨ d = 'x') ∧ e = ']' ∧ f = ' ' ∧ rest ≠ [] then
      let r := scanItemText [] rest
      some (d == 'x', r.1, r.2)
    else none
  | _ => none

/-- Value of an ASCII digit character, `none` otherwise (the numeric fields of
Go's `time.Parse`). -/
def digitVal (c : Char) : Option Nat :=
  if '0' ≤ c ∧ c ≤ '9' then some (c.toNat - '0'.toNat) else none

/-- A wall-clock timestamp as carried by the layout `2006-01-02 15:04`:
year, month, day, hour, minute. -/
structure Timestamp where
  year : Nat
  month : Nat
  day : Nat
  hour : Nat
  minute : Nat
deriving DecidableEq

/-- Days in a month, with the Gregorian leap rule (Go `time.daysIn`). -/
def daysIn (year month : Nat) : Nat :=
  if month = 2 then
    if year % 4 = 0 ∧ (year % 100 ≠ 0 ∨ year % 400 = 0) then 29 else 28
  else if month = 4 ∨ month = 6 ∨ month = 9 ∨ month = 11 then 30 else 31

/-- Parse `:MM` and require end of input, given the already-parsed hour
(the tail of Go's `time.Parse` for layout `15:04`). -/
def parseColonMin (hour : Nat) (s : List Char) : Option (Nat × Nat) :=
  match s with
  | ':' :: m1 :: m2 :: [] => do
    let a ← digitVal m1
    let b ← digitVal m2
    pure (hour, 10 * a + b)
  | _ => none

/-- Parse the hour (one or two digits, as Go's non-fixed `getnum` for layout
`15`) followed by `:MM` and end of input. -/
def parseHM (s : List Char) : Option (Nat × Nat) :=
  match s with
  | [] => none
  | h1 :: rest1 =>
    match digitVal h1 with
    | none => none
    | some x =>
      match rest1 with
      | [] => none
      | c2 :: rest2 =>
        match digitVal c2 with
        | some y => parseColonMin (10 * x + y) rest2
        | none => parseColonMin x rest1

/-- Go's `time.Parse("2006-01-02 15:04", s)`: a four-digit year, fixed
two-digit month and day, one-or-two-digit hour, two-digit minute, the literal
separators, no trailing input, and the range checks Go applies (month 1–12,
day within the month, hour below 24, minute below 60). -/
def parseTimestamp (s : List Char) : Option Timestamp :=
  match s with
  | y1 :: y2 :: y3 :: y4 :: '-' :: mo1 :: mo2 :: '-' :: d1 :: d2 :: ' ' :: rest => do
    let a ← digitVal y1
    let b ← digitVal y2
    let c ← digitVal y3
    let d ← digitVal y4
    let e ← digitVal mo1
    let f ← digitVal mo2
    let g ← digitVal d1
    let h ← digitVal d2
    let year := 1000 * a + 100 * b + 10 * c + d
    let month := 10 * e + f
    let day := 10 * g + h
    let hm ← parseHM rest
    if 1 ≤ month ∧ month ≤ 12 ∧ 1 ≤ day ∧ day ≤ daysIn year month ∧
        hm.1 ≤ 23 ∧ hm.2 ≤ 59 then
      some ⟨year, month, day, hm.1, hm.2⟩
    else none
  | _ => none

/-- Two-digit zero-padded decimal (Go `Format` for layout items `01`, `02`,
`15`, `04`; values of 100 or more print in full). -/
def pad2 (n : Nat) : List Char :=
  if n < 100 then [Nat.digitChar (n / 10), Nat.digitChar (n % 10)]
  else Nat.toDigits 10 n

/-- Four-digit zero-padded decimal (Go `Format` for the layout year `2006`;
values of 10000 or more print in full). -/
def pad4 (n : Nat) : List Char :=
  if n < 10000 then
    [Nat.digitChar (n / 1000), Nat.digitChar (n / 100 % 10),
     Nat.digitChar (n / 10 % 10), Nat.digitChar (n % 10)]
  else Nat.toDigits 10 n

/-- Go's `CompletedTime.Format("2006-01-02 15:04")`. -/
def formatTimestamp (t : Timestamp) : List Char :=
  pad4 t.year ++ '-' :: (pad2 t.month ++ '-' :: (pad2 t.day ++ ' ' :: (pad2 t.hour ++ ':' :: pad2 t.minute)))

/-- A timestamp representable as a Go `time.Time` whose formatted form
re-parses: in-range calendar fields and a four-digit year. -/
def Timestamp.Valid (t : Timestamp) : Prop :=
  t.year ≤ 9999 ∧ 1 ≤ t.month ∧ t.month ≤ 12 ∧ 1 ≤ t.day ∧
  t.day ≤ daysIn t.year t.month ∧ t.hour ≤ 23 ∧ t.minute ≤ 59

instance (t : Timestamp) : Decidable t.Valid := by
  unfold Timestamp.Valid; infer_instance

/-- Chronological order on timestamps (lexicographic on the fields). -/
def tsLe (a b : Timestamp) : Prop :=
  a.year < b.year ∨ (a.year = b.year ∧ (a.month < b.month ∨ (a.month = b.month ∧
    (a.day < b.day ∨ (a.day = b.day ∧ (a.hour < b.hour ∨ (a.hour = b.hour ∧
      a.minute ≤ b.minute)))))))

instance (a b : Timestamp) : Decidable (tsLe a b) := by
  unfold tsLe; infer_instance

/-- `TodoItem` of `pkg/todo.go`: 1-based position ID (recomputed at every
parse), the line text, the completion flag, and the optional completion
time (`CompletedTime *time.Time`). -/
structure TodoItem where
  id : Int
  text : List Char
  completed : Bool
  completedTime : Option Timestamp
deriving DecidableEq

/-- `TodoList` of `pkg/todo.go`. -/
structure TodoList where
  Items : List TodoItem
deriving DecidableEq

/-- Build the item for a matched checkbox line, as the loop body of
`ParseTodoFile` does: the timestamp is parsed only when the item is
completed and the capture group matched; a failed `time.Parse` leaves the
time absent. -/
def itemFromMatch (itemID : Int) (completed : Bool) (text : List Char)
    (tsOpt : Option (List Char)) : TodoItem :=
  { id := itemID, text := text, completed := completed,
    completedTime :=
      if completed then
        match tsOpt with
        | some ts => parseTimestamp ts
        | none => none
      else none }

/-- The scanning loop of `ParseTodoFile`: trim each line, try the checkbox
regex, emit an item with the next sequential ID on a match, skip the line
otherwise. -/
def parseLines (itemID : Int) : List (List Char) → List TodoItem
  | [] => []
  | line :: rest =>
    match matchCheckboxLine (goTrimSpace line) with
    | some m => itemFromMatch itemID m.1 m.2.1 m.2.2 :: parseLines (itemID + 1) rest
    | none => parseLines itemID rest

/-- Strip one trailing carriage return, as `bufio.ScanLines` does. -/
def dropCR (l : List Char) : List Char :=
  if l.getLast? == some '\r' then l.dropLast else l

/-- The token loop of `bufio.Scanner` with `ScanLines`: split on `\n`,
strip one trailing `\r` per line, yield a final token only when input
remains after the last newline. -/
def scanLinesAux (acc : List Char) : List Char → List (List Char)
  | [] => [dropCR acc.reverse]
  | c :: t =>
    if c = '\n' then
      dropCR acc.reverse ::
        (match t with
         | [] => []
         | _ :: _ => scanLinesAux [] t)
    else scanLinesAux (c :: acc) t

/-- All line tokens of a file content (empty content yields no tokens). -/
def scanLines (s : List Char) : List (List Char) :=
  match s with
  | [] => []
  | _ :: _ => scanLinesAux [] s

/-- `ParseTodoFile` applied to the text of an existing file. -/
def ParseTodoContent (s : List Char) : List TodoItem :=
  parseLines 1 (scanLines s)

/-- `ParseTodoFile`: a missing file (`os.IsNotExist`) yields the empty list;
otherwise the content is scanned line by line. -/
def ParseTodoFile (fs : Option (List Char)) : TodoList :=
  match fs with
  | none => { Items := [] }
  | some s => { Items := ParseTodoContent s }

/-- One output line of `WriteTodoFile`: `- [ ] text`, `- [x] text`, or
`- [x] text (completed: ts)`, each newline-terminated. -/
def formatItemLine (it : TodoItem) : List Char :=
  if it.completed then
    match it.completedTime with
    | some t => ("- [x] ".data ++ it.text ++ " (completed: ".data ++ formatTimestamp t ++ ")\n".data)
    | none => ("- [x] ".data ++ it.text ++ "\n".data)
  else ("- [ ] ".data ++ it.text ++ "\n".data)

/-- `WriteTodoFile`: the header line and blank line, then the items printed
in order (the sequential `Fprintf` calls accumulate left to right). -/
def WriteTodoContent (branchName : List Char) (items : List TodoItem) : List Char :=
  items.foldl (fun acc it => acc ++ formatItemLine it)
    ("# Todo List for ".data ++ branchName ++ "\n\n".data)

/-- String-level wrapper for `ParseTodoFile` on existing content. -/
def ParseTodoFileContent (s : String) : List TodoItem :=
  ParseTodoContent s.data

/-- String-level wrapper for `WriteTodoFile`. -/
def WriteTodoFileContent (branchName : String) (items : List TodoItem) : String :=
  ⟨WriteTodoContent branchName.data items⟩

/-- The append performed by `AddTodoItem`: a fresh item with
`ID = len + 1`, not completed, no completion time. -/
def AddTodoItemList (items : List TodoItem) (text : List Char) : List TodoItem :=
  items ++ [{ id := (items.length : Int) + 1, text := text, completed := false,
              completedTime := none }]

/-- `AddTodoItem`: parse the (possibly missing) file, append the new item,
and produce the rewritten file content. -/
def AddTodoItem (branchName text : List Char) (fs : Option (List Char)) : List Char :=
  WriteTodoContent branchName (AddTodoItemList (ParseTodoFile fs).Items text)

/-- In-place update of position `i`, as Go's `todoList.Items[i] = ...`
(out-of-range indices leave the list unchanged; the operations only use
indices validated against the length). -/
def modifyAt (l : List TodoItem) (i : Nat) (f : TodoItem → TodoItem) : List TodoItem :=
  match l, i with
  | [], _ => []
  | x :: t, 0 => f x :: t
  | x :: t, n + 1 => x :: modifyAt t n f

/-- The two assignments of `CheckTodoItem`: mark completed and stamp the
current time. -/
def checkUpdate (now : Timestamp) (it : TodoItem) : TodoItem :=
  { it with completed := true, completedTime := some now }

/-- The two assignments of `UncheckTodoItem`: clear the flag and the time. -/
def uncheckUpdate (it : TodoItem) : TodoItem :=
  { it with completed := false, completedTime := none }

/-- The error taxonomy relevant to the item operations. -/
inductive TodoError where
  | invalidID (id : Int)
deriving DecidableEq

/-- `CheckTodoItem`: read the file, reject out-of-range IDs before any write
(returning the file state unchanged), otherwise set item `itemID - 1`
completed at `now` and rewrite the file. -/
def CheckTodoItem (now : Timestamp) (branchName : List Char) (itemID : Int)
    (fs : Option (List Char)) : Option (List Char) × Option TodoError :=
  let items := (ParseTodoFile fs).Items
  if itemID < 1 ∨ itemID > (items.length : Int) then
    (fs, some (.invalidID itemID))
  else
    (some (WriteTodoContent branchName
      (modifyAt items (itemID - 1).toNat (checkUpdate now))), none)

/-- `UncheckTodoItem`: as `CheckTodoItem`, but clearing the flag and time. -/
def UncheckTodoItem (branchName : List Char) (itemID : Int)
    (fs : Option (List Char)) : Option (List Char) × Option TodoError :=
  let items := (ParseTodoFile fs).Items
  if itemID < 1 ∨ itemID > (items.length : Int) then
    (fs, some (.invalidID itemID))
  else
    (some (WriteTodoContent branchName
      (modifyAt items (itemID - 1).toNat uncheckUpdate)), none)

/-- The state touched by `todo list --delete`: the current git branch, the
set of branches, and the todo files (name, content). -/
structure GitState where
  currentBranch : List Char
  branches : List (List Char)
  todoFiles : List (List Char × List Char)
deriving DecidableEq

/-- Outcome of the delete path of `listCmd`. -/
inductive DeleteOutcome where
  | onCurrent
  | missingBranch
  | cancelled
  | deleted
deriving DecidableEq

/-- The confirmation normalization of `listCmd`:
`strings.TrimSpace(strings.ToLower(response))`. -/
def normalizeResponse (resp : List Char) : List Char :=
  goTrimSpace (resp.map Char.toLower)

/-- The `--delete` path of `listCmd` in `main.go`: refuse when the current
branch is `feature/<name>` (before any mutation), then check branch
existence, then the confirmation prompt, and only then delete the branch
and remove the todo file. -/
def deleteListCmd (st : GitState) (listName : List Char) (resp : List Char) :
    GitState × DeleteOutcome :=
  let branchName := "feature/".data ++ listName
  if st.currentBranch = branchName then
    (st, .onCurrent)
  else if ¬ st.branches.contains branchName then
    (st, .missingBranch)
  else if normalizeResponse resp ≠ "y".data ∧ normalizeResponse resp ≠ "yes".data then
    (st, .cancelled)
  else
    ({ st with branches := st.branches.erase branchName,
               todoFiles := st.todoFiles.filter (fun p => p.1 ≠ listName) },
     .deleted)

/-- The side conditions on an item's text under which its serialized line
re-parses to the same text: nonempty, no newline, no trailing whitespace
(`strings.TrimSpace` would eat it), and no embedded `(completed:` (the
annotation group would split the text early). -/
def GoodText (t : List Char) : Prop :=
  t ≠ [] ∧ (∀ c ∈ t, c ≠ '\n') ∧ (∀ c, t.getLast? = some c → goIsSpace c = false) ∧
  containsSub annKey t = false

instance (t : List Char) : Decidable (GoodText t) := by
  unfold GoodText; infer_instance

/-- An item that survives the serialize/parse round trip: good text, the
completed/completedAt invariant, and a representable timestamp. -/
def GoodItem (it : TodoItem) : Prop :=
  GoodText it.text ∧ (it.completed = false → it.completedTime = none) ∧
  (∀ t, it.completedTime = some t → t.Valid)

instance (it : TodoItem) : Decidable (GoodItem it) := by
  unfold GoodItem; infer_instance

/-- The data-model invariant: `completedAt` absent whenever not completed,
and IDs dense and contiguous from 1. -/
def ListInv (l : List TodoItem) : Prop :=
  (∀ it ∈ l, it.completed = false → it.completedTime = none) ∧
  (∀ i : Fin l.length, (l.get i).id = (i : Nat) + 1)

/-- The initial content written by `CreateTodoFile`:
`fmt.Sprintf("# Todo List for %s\n\n", branchName)`. -/
def CreateTodoContent (branchName : List Char) : List Char :=
  "# Todo List for ".data ++ branchName ++ "\n\n".data

/-- An output line of `WriteTodoFile` without its terminating newline
(the token `bufio.Scanner` will hand back for it). -/
def lineBody (it : TodoItem) : List Char :=
  if it.completed then
    match it.completedTime with
    | some t => ("- [x] ".data ++ it.text ++ " (completed: ".data ++ formatTimestamp t ++ ")".data)
    | none => ("- [x] ".data ++ it.text)
  else ("- [ ] ".data ++ it.text)

/-! ## Basic lemmas about trimming and line classification -/

lemma dropWhile_append_single {p : Char → Bool} (l : List Char) (a : Char)
    (ha : p a = false) : ∃ s, (l ++ [a]).dropWhile p = s ++ [a] := by
  induction l with
  | nil => exact ⟨[], by simp [List.dropWhile_cons, ha]⟩
  | cons c t ih =>
    by_cases hc : p c
    · simpa [List.dropWhile_cons, hc] using ih
    · exact ⟨c :: t, by simp [List.dropWhile_cons, hc]⟩

lemma goTrimSpace_cons_head (a : Char) (r : List Char) (ha : goIsSpace a = false) :
    ∃ s, goTrimSpace (a :: r) = a :: s := by
  unfold goTrimSpace
  rw [List.dropWhile_cons_of_neg (by simp [ha])]
  rw [List.reverse_cons]
  obtain ⟨s, hs⟩ := dropWhile_append_single r.reverse a ha
  exact ⟨s.reverse, by rw [hs, List.reverse_append]; simp⟩

lemma goTrimSpace_eq_self (l : List Char)
    (h1 : ∀ c, l.head? = some c → goIsSpace c = false)
    (h2 : ∀ c, l.getLast? = some c → goIsSpace c = false) :
    goTrimSpace l = l := by
  cases l with
  | nil => rfl
  | cons a t =>
    unfold goTrimSpace
    rw [List.dropWhile_cons_of_neg (by simp [h1 a rfl])]
    cases hr : (a :: t).reverse with
    | nil => exact absurd hr (by simp)
    | cons b rb =>
      have hb : (a :: t).getLast? = some b := by
        rw [← List.head?_reverse, hr]; rfl
      rw [List.dropWhile_cons_of_neg (by simp [h2 b hb]), ← hr,
        List.reverse_reverse]

lemma matchCheckboxLine_ne_dash (a : Char) (xs : List Char) (ha : a ≠ '-') :
    matchCheckboxLine (a :: xs) = none := by
  rcases xs with _ | ⟨b, _ | ⟨c, _ | ⟨d, _ | ⟨e, _ | ⟨f, rest⟩⟩⟩⟩⟩ <;>
    simp [matchCheckboxLine, ha]

lemma matchCheckboxLine_header (r : List Char) :
    matchCheckboxLine (goTrimSpace ('#' :: r)) = none := by
  obtain ⟨s, hs⟩ := goTrimSpace_cons_head '#' r (by decide)
  rw [hs]
  exact matchCheckboxLine_ne_dash _ _ (by decide)

lemma matchCheckboxLine_blank : matchCheckboxLine (goTrimSpace []) = none := rfl

/-! ## The serializer as header plus joined lines -/

lemma foldl_append_flatten (f : TodoItem → List Char) :
    ∀ (l : List TodoItem) (a : List Char),
      l.foldl (fun acc it => acc ++ f it) a = a ++ (l.map f).flatten
  | [], a => by simp
  | it :: l, a => by
    simp only [List.foldl_cons, List.map_cons, List.flatten_cons]
    rw [foldl_append_flatten f l (a ++ f it), List.append_assoc]

lemma WriteTodoContent_eq (b : List Char) (items : List TodoItem) :
    WriteTodoContent b items =
      "# Todo List for ".data ++ b ++ "\n\n".data ++ (items.map formatItemLine).flatten := by
  unfold WriteTodoContent
  rw [foldl_append_flatten]

/-! ## Lemmas about in-place update -/

lemma modifyAt_length (l : List TodoItem) (i : Nat) (f : TodoItem → TodoItem) :
    (modifyAt l i f).length = l.length := by
  induction l generalizing i with
  | nil => rfl
  | cons x t ih =>
    cases i with
    | zero => rfl
    | succ n => simpa [modifyAt] using ih n

/-! ## Scanner lemmas -/

lemma dropCR_eq_self (l : List Char) (h : l.getLast? ≠ some '\r') : dropCR l = l := by
  simp [dropCR, h]

lemma dropCR_cons (c : Char) (r : List Char) (h : r ≠ []) :
    ∃ s, dropCR (c :: r) = c :: s := by
  unfold dropCR
  by_cases hl : (c :: r).getLast? == some '\r'
  · rw [if_pos hl]
    cases r with
    | nil => exact absurd rfl h
    | cons d t => exact ⟨(d :: t).dropLast, by simp⟩
  · exact ⟨r, by rw [if_neg hl]⟩

lemma scanLinesAux_append (acc a b : List Char) (ha : '\n' ∉ a) :
    scanLinesAux acc (a ++ '\n' :: b) = dropCR (acc.reverse ++ a) :: scanLines b := by
  induction a generalizing acc with
  | nil =>
    cases b with
    | nil => simp [scanLinesAux, scanLines]
    | cons c t => simp [scanLinesAux, scanLines]
  | cons c a' ih =>
    have hc : c ≠ '\n' := fun hcc => ha (by simp [hcc])
    have ha' : '\n' ∉ a' := fun hm => ha (List.mem_cons_of_mem _ hm)
    simp only [List.cons_append, scanLinesAux, if_neg hc, List.append_eq]
    rw [ih (c :: acc) ha']
    simp

lemma scanLines_append (a b : List Char) (ha : '\n' ∉ a) :
    scanLines (a ++ '\n' :: b) = dropCR a :: scanLines b := by
  cases a with
  | nil => simpa using scanLinesAux_append [] [] b (by simp)
  | cons c a' =>
    show scanLinesAux [] ((c :: a') ++ '\n' :: b) = _
    simpa using scanLinesAux_append [] (c :: a') b ha

/-! ## C5: missing file reads as the empty list -/

/-- C5: for every list name, reading a list whose backing file does not exist
returns an empty list (no error), identically to reading an existing file
holding only the header that `CreateTodoFile` writes. -/
theorem c5_missing_file_empty (name : List Char) (h : '\n' ∉ name) :
    ParseTodoFile none = { Items := [] } ∧
    ParseTodoFile (some (CreateTodoContent name)) = { Items := [] } := by
  refine ⟨rfl, ?_⟩
  have hnl : '\n' ∉ "# Todo List for ".data ++ name := by
    intro hm
    rcases List.mem_append.mp hm with h1 | h2
    · exact absurd h1 (by decide)
    · exact h h2
  have hcontent : CreateTodoContent name =
      ("# Todo List for ".data ++ name) ++ '\n' :: '\n' :: [] := by
    show "# Todo List for ".data ++ name ++ "\n\n".data = _
    rw [List.append_assoc]
  have hdr : ∃ s, dropCR ("# Todo List for ".data ++ name) =
      '#' :: s := by
    show ∃ s, dropCR ('#' :: (" Todo List for ".data ++ name)) = '#' :: s
    exact dropCR_cons _ _ (by simp)
  obtain ⟨s, hs⟩ := hdr
  have hred : ParseTodoFile (some (CreateTodoContent name)) =
      { Items := parseLines 1 (scanLines (CreateTodoContent name)) } := rfl
  rw [hred, hcontent, scanLines_append _ _ hnl, hs]
  have h2 : scanLines ('\n' :: []) = [[]] := rfl
  rw [h2]
  simp [parseLines, matchCheckboxLine_header s, matchCheckboxLine_blank]

/-! ## C6: add appends one fresh pending item -/

/-- C6: `AddTodoItem` appends exactly one item with `id = N + 1`, not
completed and with no completion time, preserving the existing items and
their order; on an empty (missing) list the result is a single item with
`id = 1`. -/
theorem c6_add_appends (fs : Option (List Char)) (text : List Char) :
    AddTodoItemList (ParseTodoFile fs).Items text =
      (ParseTodoFile fs).Items ++
        [{ id := ((ParseTodoFile fs).Items.length : Int) + 1, text := text,
           completed := false, completedTime := none }] ∧
    AddTodoItemList (ParseTodoFile none).Items text =
      [{ id := 1, text := text, completed := false, completedTime := none }] := by
  refine ⟨rfl, ?_⟩
  show AddTodoItemList [] text = _
  simp [AddTodoItemList]

/-! ## C7: the shape of the serializer output -/

/-- C7: `WriteTodoFile` output is a pure function of the name and items:
always the header line and a blank line, then one line per item in order,
`- [ ] text` for pending items, `- [x] text (completed: ts)` for completed
items with a time, and `- [x] text` when the time is absent; and the
spec's concrete example serializes to exactly its four-line document. -/
theorem c7_serialize_shape :
    (∀ name items, WriteTodoFileContent name items =
        ⟨"# Todo List for ".data ++ name.data ++ "\n\n".data ++
          (items.map formatItemLine).flatten⟩) ∧
    (∀ it : TodoItem, it.completed = false →
        formatItemLine it = "- [ ] ".data ++ it.text ++ ['\n']) ∧
    (∀ it : TodoItem, ∀ t, it.completed = true → it.completedTime = some t →
        formatItemLine it =
          "- [x] ".data ++ it.text ++ " (completed: ".data ++ formatTimestamp t ++ [')', '\n']) ∧
    (∀ it : TodoItem, it.completed = true → it.completedTime = none →
        formatItemLine it = "- [x] ".data ++ it.text ++ ['\n']) ∧
    WriteTodoFileContent "demo"
      [{ id := 1, text := "A".data, completed := false, completedTime := none },
       { id := 2, text := "B".data, completed := true,
         completedTime := some ⟨2024, 1, 15, 10, 30⟩ }] =
      "# Todo List for demo\n\n- [ ] A\n- [x] B (completed: 2024-01-15 10:30)\n" := by
  refine ⟨?_, ?_, ?_, ?_, ?_⟩
  · intro name items
    show (⟨WriteTodoContent name.data items⟩ : String) = _
    rw [WriteTodoContent_eq]
  · intro it hc
    simp [formatItemLine, hc]
  · intro it t hc ht
    simp [formatItemLine, hc, ht]
  · intro it hc ht
    simp [formatItemLine, hc, ht]
  · decide

/-! ## C9: deleting the current list is rejected before any mutation -/

/-- C9: when the named list corresponds to the current branch
(`feature/<name>`), the delete path of `listCmd` rejects the request and
the state (branches and todo files) is returned unchanged. -/
theorem c9_delete_current_rejected (st : GitState) (name resp : List Char)
    (h : st.currentBranch = "feature/".data ++ name) :
    deleteListCmd st name resp = (st, DeleteOutcome.onCurrent) := by
  simp [deleteListCmd, h]

theorem c9_delete_current_rejected_check :
    deleteListCmd
        { currentBranch := "feature/auth".data,
          branches := ["main".data, "feature/auth".data],
          todoFiles := [("auth".data, "# Todo List for auth\n\n".data)] }
        "auth".data "y\n".data =
      ({ currentBranch := "feature/auth".data,
         branches := ["main".data, "feature/auth".data],
         todoFiles := [("auth".data, "# Todo List for auth\n\n".data)] },
       DeleteOutcome.onCurrent) :=
  c9_delete_current_rejected _ _ _ (by decide)

/-! ## C2: the bounds check of check/uncheck -/

/-- C2: `CheckTodoItem` and `UncheckTodoItem` fail with `InvalidID` exactly
when `id < 1` or `id >` the number of items parsed from the list, and in
that case the file state is returned unchanged (the bounds check precedes
the write). -/
theorem c2_invalid_id_bounds (now : Timestamp) (branch : List Char) (id : Int)
    (fs : Option (List Char)) :
    ((CheckTodoItem now branch id fs).2 = some (.invalidID id) ↔
      (id < 1 ∨ id > ((ParseTodoFile fs).Items.length : Int))) ∧
    ((id < 1 ∨ id > ((ParseTodoFile fs).Items.length : Int)) →
      (CheckTodoItem now branch id fs).1 = fs) ∧
    ((UncheckTodoItem branch id fs).2 = some (.invalidID id) ↔
      (id < 1 ∨ id > ((ParseTodoFile fs).Items.length : Int))) ∧
    ((id < 1 ∨ id > ((ParseTodoFile fs).Items.length : Int)) →
      (UncheckTodoItem branch id fs).1 = fs) := by
  unfold CheckTodoItem UncheckTodoItem
  by_cases h : id < 1 ∨ id > ((ParseTodoFile fs).Items.length : Int) <;> simp [h]

theorem c2_invalid_id_bounds_check :
    ((CheckTodoItem ⟨2024, 1, 15, 10, 30⟩ "x".data 0
        (some "# Todo List for x\n\n- [ ] a\n- [ ] b\n".data)).2 =
      some (.invalidID 0) ∧
     (CheckTodoItem ⟨2024, 1, 15, 10, 30⟩ "x".data 0
        (some "# Todo List for x\n\n- [ ] a\n- [ ] b\n".data)).1 =
      some "# Todo List for x\n\n- [ ] a\n- [ ] b\n".data) ∧
    ((CheckTodoItem ⟨2024, 1, 15, 10, 30⟩ "x".data 999
        (some "# Todo List for x\n\n- [ ] a\n- [ ] b\n".data)).2 =
      some (.invalidID 999) ∧
     (CheckTodoItem ⟨2024, 1, 15, 10, 30⟩ "x".data 999
        (some "# Todo List for x\n\n- [ ] a\n- [ ] b\n".data)).1 =
      some "# Todo List for x\n\n- [ ] a\n- [ ] b\n".data) :=
  ⟨⟨(c2_invalid_id_bounds ⟨2024, 1, 15, 10, 30⟩ "x".data 0 _).1.mpr (by left; decide),
    (c2_invalid_id_bounds ⟨2024, 1, 15, 10, 30⟩ "x".data 0 _).2.1 (by left; decide)⟩,
   ⟨(c2_invalid_id_bounds ⟨2024, 1, 15, 10, 30⟩ "x".data 999 _).1.mpr (by right; decide),
    (c2_invalid_id_bounds ⟨2024, 1, 15, 10, 30⟩ "x".data 999 _).2.1 (by right; decide)⟩⟩

theorem c5_missing_file_empty_check :
    ParseTodoFile none = { Items := [] } ∧
    ParseTodoFile (some (CreateTodoContent "demo".data)) = { Items := [] } :=
  c5_missing_file_empty "demo".data (by decide)

theorem c7_serialize_shape_check :
    formatItemLine { id := 1, text := "A".data, completed := false, completedTime := none } =
      "- [ ] ".data ++ "A".data ++ ['\n'] :=
  c7_serialize_shape.2.1 _ rfl

/-! ## C3: the parse is total and permissive -/

lemma parseLines_skip (n : Int) (pre post : List (List Char)) (line : List Char)
    (hline : matchCheckboxLine (goTrimSpace line) = none) :
    parseLines n (pre ++ line :: post) = parseLines n (pre ++ post) := by
  induction pre generalizing n with
  | nil => simp [parseLines, hline]
  | cons p pre' ih =>
    cases hm : matchCheckboxLine (goTrimSpace p) with
    | none => simp [parseLines, hm, ih]
    | some m => simp [parseLines, hm, ih]

/-- C3: parsing never fails: any line on which the checkbox regex does not
match — in particular the title heading and blank lines — is silently
skipped wherever it occurs, and a matched completed line whose timestamp
text does not parse yields an item that is completed with no timestamp
instead of an error. -/
theorem c3_lenient_parse :
    (∀ (n : Int) (pre post : List (List Char)) (line : List Char),
        matchCheckboxLine (goTrimSpace line) = none →
        parseLines n (pre ++ line :: post) = parseLines n (pre ++ post)) ∧
    (∀ (name rest : _) (n : Int),
        parseLines n (("# Todo List for ".data ++ name) :: rest) = parseLines n rest) ∧
    (∀ (rest : _) (n : Int), parseLines n ([] :: rest) = parseLines n rest) ∧
    (∀ (n : Int) (c : Bool) (txt F : List Char), parseTimestamp F = none →
        itemFromMatch n c txt (some F) =
          { id := n, text := txt, completed := c, completedTime := none }) := by
  refine ⟨parseLines_skip, ?_, ?_, ?_⟩
  · intro name rest n
    have : "# Todo List for ".data ++ name = '#' :: (" Todo List for ".data ++ name) := rfl
    rw [this]
    simpa using parseLines_skip n [] rest _ (matchCheckboxLine_header _)
  · intro rest n
    simpa using parseLines_skip n [] rest [] matchCheckboxLine_blank
  · intro n c txt F hF
    cases c <;> simp [itemFromMatch, hF]

theorem c3_lenient_parse_check :
    parseLines 1 ("hello".data :: "- [ ] ok".data :: []) =
      parseLines 1 ("- [ ] ok".data :: []) :=
  c3_lenient_parse.1 1 [] ("- [ ] ok".data :: []) "hello".data (by decide)

/-! ## C4: the data-model invariant -/

lemma parseLines_id_dense (lines : List (List Char)) (n : Int) :
    ∀ (i : Nat) (h : i < (parseLines n lines).length),
      ((parseLines n lines).get ⟨i, h⟩).id = n + i := by
  induction lines generalizing n with
  | nil => intro i h; simp [parseLines] at h
  | cons l rest ih =>
    intro i h
    cases hm : matchCheckboxLine (goTrimSpace l) with
    | none =>
      have h' : i < (parseLines n rest).length := by
        simpa [parseLines, hm] using h
      calc ((parseLines n (l :: rest)).get ⟨i, h⟩).id
          = ((parseLines n rest).get ⟨i, h'⟩).id := by
            congr 1
            simp [parseLines, hm]
        _ = n + i := ih n i h'
    | some m =>
      cases i with
      | zero =>
        have : (parseLines n (l :: rest)).get ⟨0, h⟩ =
            itemFromMatch n m.1 m.2.1 m.2.2 := by
          simp [parseLines, hm]
        rw [this]
        simp [itemFromMatch]
      | succ j =>
        have h' : j < (parseLines (n + 1) rest).length := by
          simpa [parseLines, hm] using h
        have : (parseLines n (l :: rest)).get ⟨j + 1, h⟩ =
            (parseLines (n + 1) rest).get ⟨j, h'⟩ := by
          simp [parseLines, hm]
        rw [this, ih (n + 1) j h']
        push_cast
        ring

lemma parseLines_mem (lines : List (List Char)) (n : Int) (it : TodoItem)
    (h : it ∈ parseLines n lines) :
    ∃ m c txt ts, it = itemFromMatch m c txt ts := by
  induction lines generalizing n with
  | nil => simp [parseLines] at h
  | cons l rest ih =>
    cases hm : matchCheckboxLine (goTrimSpace l) with
    | none =>
      rw [parseLines, hm] at h
      exact ih n h
    | some m =>
      rw [parseLines, hm] at h
      rcases List.mem_cons.mp h with h1 | h2
      · exact ⟨n, m.1, m.2.1, m.2.2, h1⟩
      · exact ih (n + 1) h2

lemma itemFromMatch_time (n : Int) (c : Bool) (txt : List Char)
    (ts : Option (List Char)) :
    (itemFromMatch n c txt ts).completed = false →
    (itemFromMatch n c txt ts).completedTime = none := by
  cases c <;> simp [itemFromMatch]

lemma modifyAt_get (l : List TodoItem) (i : Nat) (f : TodoItem → TodoItem)
    (j : Nat) (hj : j < (modifyAt l i f).length) (hj2 : j < l.length) :
    (modifyAt l i f).get ⟨j, hj⟩ =
      if j = i then f (l.get ⟨j, hj2⟩) else l.get ⟨j, hj2⟩ := by
  induction l generalizing i j with
  | nil => simp at hj2
  | cons x t ih =>
    cases i with
    | zero =>
      cases j with
      | zero => simp [modifyAt]
      | succ jj => simp [modifyAt]
    | succ ii =>
      cases j with
      | zero => simp [modifyAt]
      | succ jj =>
        have hj' : jj < (modifyAt t ii f).length := by
          simpa [modifyAt] using hj
        have hj2' : jj < t.length := by simpa using hj2
        have := ih ii jj hj' hj2'
        simp only [modifyAt, List.get_cons_succ]
        rw [this]
        by_cases hji : jj = ii <;> simp [hji]

lemma modifyAt_mem (l : List TodoItem) (i : Nat) (f : TodoItem → TodoItem)
    (it : TodoItem) (h : it ∈ modifyAt l i f) :
    it ∈ l ∨ ∃ x ∈ l, it = f x := by
  induction l generalizing i with
  | nil => simp [modifyAt] at h
  | cons x t ih =>
    cases i with
    | zero =>
      rcases List.mem_cons.mp h with h1 | h2
      · exact Or.inr ⟨x, List.mem_cons_self x t, h1⟩
      · exact Or.inl (List.mem_cons_of_mem x h2)
    | succ n =>
      rcases List.mem_cons.mp h with h1 | h2
      · exact Or.inl (h1 ▸ List.mem_cons_self x t)
      · rcases ih n h2 with h3 | ⟨y, hy, hiy⟩
        · exact Or.inl (List.mem_cons_of_mem x h3)
        · exact Or.inr ⟨y, List.mem_cons_of_mem x hy, hiy⟩

/-- C4: every list produced by the parser, and every in-memory list the
item operations build from a parsed list (append by `AddTodoItem`, the
element updates of `CheckTodoItem` and `UncheckTodoItem`), satisfies the
invariant: `completedTime` is absent whenever `completed` is false, and
IDs are dense and contiguous `1..N` in list order. -/
theorem c4_invariants (s txt : List Char) (idx : Nat) (now : Timestamp) :
    ListInv (ParseTodoContent s) ∧
    ListInv (AddTodoItemList (ParseTodoContent s) txt) ∧
    ListInv (modifyAt (ParseTodoContent s) idx (checkUpdate now)) ∧
    ListInv (modifyAt (ParseTodoContent s) idx uncheckUpdate) := by
  have hparse : ListInv (ParseTodoContent s) := by
    constructor
    · intro it hmem hc
      obtain ⟨m, c, t2, ts, rfl⟩ := parseLines_mem _ _ _ hmem
      exact itemFromMatch_time _ _ _ _ hc
    · intro i
      have h2 := parseLines_id_dense (scanLines s) 1 i.1 i.2
      calc ((ParseTodoContent s).get i).id = 1 + (i.1 : Int) := h2
        _ = (i.1 : Int) + 1 := by ring
  refine ⟨hparse, ?_, ?_, ?_⟩
  · constructor
    · intro it hmem hc
      rcases List.mem_append.mp hmem with h1 | h2
      · exact hparse.1 it h1 hc
      · simp only [List.mem_singleton] at h2
        subst h2
        rfl
    · intro i
      rcases Nat.lt_or_ge i.1 (ParseTodoContent s).length with hlt | hge
      · have : (AddTodoItemList (ParseTodoContent s) txt).get i =
            (ParseTodoContent s).get ⟨i.1, hlt⟩ := by
          unfold AddTodoItemList
          rw [List.get_eq_getElem, List.get_eq_getElem,
            List.getElem_append_left hlt]
        rw [this]
        exact hparse.2 ⟨i.1, hlt⟩
      · have hi : i.1 = (ParseTodoContent s).length := by
          have := i.2
          unfold AddTodoItemList at this
          simp at this
          omega
        have : (AddTodoItemList (ParseTodoContent s) txt).get i =
            { id := ((ParseTodoContent s).length : Int) + 1, text := txt,
              completed := false, completedTime := none } := by
          unfold AddTodoItemList
          rw [List.get_eq_getElem, List.getElem_append_right (le_of_eq hi.symm)]
          simp [hi]
        rw [this]
        simp [hi]
  · constructor
    · intro it hmem hc
      rcases modifyAt_mem _ _ _ _ hmem with h1 | ⟨x, hx, rfl⟩
      · exact hparse.1 it h1 hc
      · simp [checkUpdate] at hc
    · intro i
      have hl : i.1 < (ParseTodoContent s).length := by
        have h3 := i.2
        have h4 := modifyAt_length (ParseTodoContent s) idx (checkUpdate now)
        omega
      rw [modifyAt_get _ _ _ i.1 i.2 hl]
      by_cases hidx : i.1 = idx
      · rw [if_pos hidx]
        simpa [checkUpdate] using hparse.2 ⟨i.1, hl⟩
      · rw [if_neg hidx]
        exact hparse.2 ⟨i.1, hl⟩
  · constructor
    · intro it hmem hc
      rcases modifyAt_mem _ _ _ _ hmem with h1 | ⟨x, hx, rfl⟩
      · exact hparse.1 it h1 hc
      · rfl
    · intro i
      have hl : i.1 < (ParseTodoContent s).length := by
        have h3 := i.2
        have h4 := modifyAt_length (ParseTodoContent s) idx uncheckUpdate
        omega
      rw [modifyAt_get _ _ _ i.1 i.2 hl]
      by_cases hidx : i.1 = idx
      · rw [if_pos hidx]
        simpa [uncheckUpdate] using hparse.2 ⟨i.1, hl⟩
      · rw [if_neg hidx]
        exact hparse.2 ⟨i.1, hl⟩

/-! ## List helper lemmas for the matcher proofs -/

lemma dropWhile_eq_drop_takeWhile (p : Char → Bool) (l : List Char) :
    l.dropWhile p = l.drop (l.takeWhile p).length := by
  induction l with
  | nil => rfl
  | cons c t ih =>
    by_cases hc : p c
    · simp [List.dropWhile_cons_of_pos hc, List.takeWhile_cons_of_pos hc, ih]
    · simp [List.dropWhile_cons_of_neg hc, List.takeWhile_cons_of_neg hc]

lemma takeWhile_append_left (p : Char → Bool) (a b : List Char)
    (h : a.dropWhile p ≠ []) : (a ++ b).takeWhile p = a.takeWhile p := by
  induction a with
  | nil => simp at h
  | cons c t ih =>
    by_cases hc : p c
    · rw [List.dropWhile_cons_of_pos hc] at h
      simp [List.takeWhile_cons_of_pos hc, ih h]
    · simp [List.takeWhile_cons_of_neg hc]

lemma dropWhile_append_left (p : Char → Bool) (a b : List Char)
    (h : a.dropWhile p ≠ []) : (a ++ b).dropWhile p = a.dropWhile p ++ b := by
  induction a with
  | nil => simp at h
  | cons c t ih =>
    by_cases hc : p c
    · rw [List.dropWhile_cons_of_pos hc] at h
      simp [List.dropWhile_cons_of_pos hc, ih h]
    · simp [List.dropWhile_cons_of_neg hc]

lemma containsSub_of_drop_take (pat t : List Char) (j : Nat)
    (h : (t.drop j).take pat.length = pat) : containsSub pat t = true := by
  induction t generalizing j with
  | nil =>
    simp only [List.drop_nil, List.take_nil] at h
    simp [containsSub, ← h]
  | cons x t' ih =>
    cases j with
    | zero =>
      simp only [List.drop_zero] at h
      unfold containsSub
      simp [h]
    | succ j' =>
      simp only [List.drop_succ_cons] at h
      unfold containsSub
      simp [ih j' h]

lemma goIsSpace_of_reIsSpace (c : Char) (h : reIsSpace c = true) :
    goIsSpace c = true := by
  have h2 : c = '\t' ∨ c = '\n' ∨ c = Char.ofNat 12 ∨ c = '\r' ∨ c = ' ' := by
    simpa [reIsSpace, or_assoc] using h
  rcases h2 with h2 | h2 | h2 | h2 | h2 <;> subst h2 <;> decide

lemma reIsSpace_eq_false_of_go (c : Char) (h : goIsSpace c = false) :
    reIsSpace c = false := by
  cases hre : reIsSpace c
  · rfl
  · rw [goIsSpace_of_reIsSpace c hre] at h
    cases h

/-! ## Timestamp format/parse round trip -/

lemma digitVal_digitChar (k : Nat) (hk : k < 10) :
    digitVal (Nat.digitChar k) = some k := by
  interval_cases k <;> decide

lemma digitChar_not_reIsSpace (k : Nat) (hk : k < 10) :
    reIsSpace (Nat.digitChar k) = false := by
  interval_cases k <;> decide

lemma digitChar_ne_nl (k : Nat) (hk : k < 10) : Nat.digitChar k ≠ '\n' := by
  interval_cases k <;> decide

lemma daysIn_le_31 (y m : Nat) : daysIn y m ≤ 31 := by
  unfold daysIn
  split
  · split <;> omega
  · split <;> omega

lemma formatTimestamp_eq (t : Timestamp) (ht : t.Valid) :
    formatTimestamp t =
      [Nat.digitChar (t.year / 1000), Nat.digitChar (t.year / 100 % 10),
       Nat.digitChar (t.year / 10 % 10), Nat.digitChar (t.year % 10), '-',
       Nat.digitChar (t.month / 10), Nat.digitChar (t.month % 10), '-',
       Nat.digitChar (t.day / 10), Nat.digitChar (t.day % 10), ' ',
       Nat.digitChar (t.hour / 10), Nat.digitChar (t.hour % 10), ':',
       Nat.digitChar (t.minute / 10), Nat.digitChar (t.minute % 10)] := by
  obtain ⟨h1, h2, h3, h4, h5, h6, h7⟩ := ht
  have hdl := daysIn_le_31 t.year t.month
  have hy : t.year < 10000 := by omega
  have hm : t.month < 100 := by omega
  have hd : t.day < 100 := by omega
  have hh : t.hour < 100 := by omega
  have hmin : t.minute < 100 := by omega
  simp [formatTimestamp, pad4, pad2, hy, hm, hd, hh, hmin]

lemma parseTimestamp_formatTimestamp (t : Timestamp) (ht : t.Valid) :
    parseTimestamp (formatTimestamp t) = some t := by
  obtain ⟨h1, h2, h3, h4, h5, h6, h7⟩ := ht
  have hdl := daysIn_le_31 t.year t.month
  rw [formatTimestamp_eq t ⟨h1, h2, h3, h4, h5, h6, h7⟩]
  have d1 := digitVal_digitChar (t.year / 1000) (by omega)
  have d2 := digitVal_digitChar (t.year / 100 % 10) (by omega)
  have d3 := digitVal_digitChar (t.year / 10 % 10) (by omega)
  have d4 := digitVal_digitChar (t.year % 10) (by omega)
  have d5 := digitVal_digitChar (t.month / 10) (by omega)
  have d6 := digitVal_digitChar (t.month % 10) (by omega)
  have d7 := digitVal_digitChar (t.day / 10) (by omega)
  have d8 := digitVal_digitChar (t.day % 10) (by omega)
  have d9 := digitVal_digitChar (t.hour / 10) (by omega)
  have d10 := digitVal_digitChar (t.hour % 10) (by omega)
  have d11 := digitVal_digitChar (t.minute / 10) (by omega)
  have d12 := digitVal_digitChar (t.minute % 10) (by omega)
  have hyr : 1000 * (t.year / 1000) + 100 * (t.year / 100 % 10) +
      10 * (t.year / 10 % 10) + t.year % 10 = t.year := by omega
  have hmo : 10 * (t.month / 10) + t.month % 10 = t.month := by omega
  have hda : 10 * (t.day / 10) + t.day % 10 = t.day := by omega
  have hho : 10 * (t.hour / 10) + t.hour % 10 = t.hour := by omega
  have hmi : 10 * (t.minute / 10) + t.minute % 10 = t.minute := by omega
  simp only [parseTimestamp, parseHM, parseColonMin, d1, d2, d3, d4, d5, d6, d7,
    d8, d9, d10, d11, d12, Option.bind_eq_bind, Option.some_bind, Option.bind_some,
    Option.pure_def]
  simp only [hyr, hmo, hda, hho, hmi]
  rw [if_pos ⟨h2, h3, h4, h5, h6, h7⟩]

/-! ## Lemmas about the annotation matcher -/

lemma matchAnnot_nil : matchAnnot [] = none := rfl

lemma matchAnnot_not_space (c : Char) (v : List Char) (hc : reIsSpace c = false) :
    matchAnnot (c :: v) = none := by
  unfold matchAnnot
  simp [List.takeWhile_cons_of_neg, hc]

lemma matchAnnot_ne_key (s : List Char)
    (hkey : ((s.dropWhile reIsSpace).take 11 == annKey) = false) :
    matchAnnot s = none := by
  unfold matchAnnot
  by_cases hw : (s.takeWhile reIsSpace).isEmpty <;> simp [hw, hkey]

lemma matchAnnot_none_of_drop (t : List Char) (i : Nat)
    (hsub : containsSub annKey t = false) :
    matchAnnot (t.drop i) = none := by
  cases hmk : ((t.drop i).dropWhile reIsSpace).take 11 == annKey
  · exact matchAnnot_ne_key _ hmk
  · exfalso
    have heq : ((t.drop i).dropWhile reIsSpace).take 11 = annKey := by
      exact beq_iff_eq.mp hmk
    have hdrop : (t.drop i).dropWhile reIsSpace =
        t.drop (i + ((t.drop i).takeWhile reIsSpace).length) := by
      rw [dropWhile_eq_drop_takeWhile, List.drop_drop]
    have := containsSub_of_drop_take annKey t
      (i + ((t.drop i).takeWhile reIsSpace).length)
      (by rw [show annKey.length = 11 from rfl, ← hdrop]; exact heq)
    rw [this] at hsub
    cases hsub

lemma getLast?_drop_eq (t : List Char) (i : Nat) (h : t.drop i ≠ []) :
    (t.drop i).getLast? = t.getLast? := by
  have h2 := List.getLast?_append_of_ne_nil (t.take i) h
  rw [List.take_append_drop] at h2
  exact h2.symm

lemma matchAnnot_none_append_mid (t : List Char) (i : Nat) (v : List Char)
    (hlast : ∀ c, t.getLast? = some c → goIsSpace c = false)
    (hsub : containsSub annKey t = false)
    (h2 : i < t.length) :
    matchAnnot (t.drop i ++ ' ' :: v) = none := by
  have hdropne : t.drop i ≠ [] := by
    rw [ne_eq, List.drop_eq_nil_iff]
    omega
  have hlast' : ∀ c, (t.drop i).getLast? = some c → goIsSpace c = false := by
    intro c hc
    apply hlast
    rw [← getLast?_drop_eq t i hdropne]
    exact hc
  have hne2 : (t.drop i).dropWhile reIsSpace ≠ [] := by
    intro hnil
    rw [List.dropWhile_eq_nil_iff] at hnil
    obtain ⟨c, hc⟩ : ∃ c, (t.drop i).getLast? = some c := by
      cases hd : (t.drop i).getLast? with
      | none => exact absurd (List.getLast?_eq_none_iff.mp hd) hdropne
      | some c => exact ⟨c, rfl⟩
    have hgo := hlast' c hc
    have hre := hnil c (List.mem_of_getLast?_eq_some hc)
    rw [goIsSpace_of_reIsSpace c hre] at hgo
    cases hgo
  have hdw : ((t.drop i ++ ' ' :: v).dropWhile reIsSpace) =
      (t.drop i).dropWhile reIsSpace ++ ' ' :: v :=
    dropWhile_append_left _ _ _ hne2
  apply matchAnnot_ne_key
  rw [hdw]
  have hu1drop : (t.drop i).dropWhile reIsSpace =
      t.drop (i + ((t.drop i).takeWhile reIsSpace).length) := by
    rw [dropWhile_eq_drop_takeWhile, List.drop_drop]
  rcases Nat.lt_or_ge ((t.drop i).dropWhile reIsSpace).length 11 with hlt | hge
  · rw [List.take_append_eq_append_take]
    apply beq_eq_false_iff_ne.mpr
    intro heq
    have h11 : 1 ≤ 11 - ((t.drop i).dropWhile reIsSpace).length := by omega
    have hsp : ' ' ∈ annKey := by
      rw [← heq]
      apply List.mem_append_right
      cases hc11 : 11 - ((t.drop i).dropWhile reIsSpace).length with
      | zero => omega
      | succ n =>
        rw [List.take_succ_cons]
        exact List.mem_cons_self _ _
    exact absurd hsp (by decide)
  · rw [List.take_append_eq_append_take]
    have hz : 11 - ((t.drop i).dropWhile reIsSpace).length = 0 := by omega
    rw [hz, List.take_zero, List.append_nil]
    apply beq_eq_false_iff_ne.mpr
    intro heq
    have hcs := containsSub_of_drop_take annKey t
      (i + ((t.drop i).takeWhile reIsSpace).length)
      (by rw [show annKey.length = 11 from rfl, ← hu1drop]; exact heq)
    rw [hcs] at hsub
    cases hsub

lemma matchAnnot_space_key (ts : List Char) (hts : ts ≠ []) :
    matchAnnot (' ' :: '(' :: 'c' :: 'o' :: 'm' :: 'p' :: 'l' :: 'e' :: 't' ::
        'e' :: 'd' :: ':' :: ' ' :: (ts ++ [')'])) =
      some ((' ' :: ts).drop
        (min ((' ' :: ts).takeWhile reIsSpace).length ts.length)) := by
  have htw : (' ' :: '(' :: 'c' :: 'o' :: 'm' :: 'p' :: 'l' :: 'e' :: 't' ::
      'e' :: 'd' :: ':' :: ' ' :: (ts ++ [')'])).takeWhile reIsSpace = [' '] := by
    rw [List.takeWhile_cons_of_pos (by decide), List.takeWhile_cons_of_neg (by decide)]
  have hdw : (' ' :: '(' :: 'c' :: 'o' :: 'm' :: 'p' :: 'l' :: 'e' :: 't' ::
      'e' :: 'd' :: ':' :: ' ' :: (ts ++ [')'])).dropWhile reIsSpace =
      '(' :: 'c' :: 'o' :: 'm' :: 'p' :: 'l' :: 'e' :: 't' ::
      'e' :: 'd' :: ':' :: ' ' :: (ts ++ [')']) := by
    rw [List.dropWhile_cons_of_pos (by decide), List.dropWhile_cons_of_neg (by decide)]
  have htake : ('(' :: 'c' :: 'o' :: 'm' :: 'p' :: 'l' :: 'e' :: 't' ::
      'e' :: 'd' :: ':' :: ' ' :: (ts ++ [')'])).take 11 = annKey := rfl
  have hdrop : ('(' :: 'c' :: 'o' :: 'm' :: 'p' :: 'l' :: 'e' :: 't' ::
      'e' :: 'd' :: ':' :: ' ' :: (ts ++ [')'])).drop 11 = ' ' :: (ts ++ [')']) := rfl
  have hu : (' ' :: (ts ++ [')']) : List Char) = (' ' :: ts) ++ [')'] := by simp
  unfold matchAnnot
  rw [htw, hdw]
  simp only [htake, hdrop, hu, beq_self_eq_true, if_true, List.isEmpty_cons,
    Bool.false_eq_true, if_false, List.getLast?_concat, List.dropLast_concat]
  simp [List.length_append]
  refine ⟨by decide, ?_, ⟨?_, List.length_pos.mpr hts⟩, ?_⟩
  · rw [hu, List.getLast?_concat]
  · rw [hu, List.dropLast_concat, List.takeWhile_cons_of_pos (by decide)]
    simp
  · rw [hu, List.dropLast_concat]

lemma matchAnnot_fmt (F : List Char) (fh : Char) (ftl : List Char)
    (hF : F = fh :: ftl) (hhead : reIsSpace fh = false) :
    matchAnnot (' ' :: '(' :: 'c' :: 'o' :: 'm' :: 'p' :: 'l' :: 'e' :: 't' ::
        'e' :: 'd' :: ':' :: ' ' :: (F ++ [')'])) = some F := by
  rw [matchAnnot_space_key F (by rw [hF]; exact List.cons_ne_nil fh ftl)]
  subst hF
  rw [List.takeWhile_cons_of_pos (by decide), List.takeWhile_cons_of_neg (by simp [hhead])]
  simp

/-! ## The lazy text group on good text -/

lemma scanItemText_no_annot (t : List Char) (acc : List Char)
    (h : ∀ i, 1 ≤ i → matchAnnot (t.drop i) = none) :
    scanItemText acc t = (acc.reverse ++ t, none) := by
  induction t generalizing acc with
  | nil => simp [scanItemText]
  | cons c t' ih =>
    have h1 : matchAnnot t' = none := by
      have := h 1 (le_refl 1)
      simpa using this
    rw [scanItemText, h1]
    rw [ih (c :: acc) ?_]
    · simp
    · intro i hi
      have := h (i + 1) (by omega)
      simpa using this

lemma scanItemText_finds (t rest2 : List Char) (acc : List Char) (cap : List Char)
    (hne : t ≠ [])
    (hmid : ∀ i, 1 ≤ i → i < t.length → matchAnnot (t.drop i ++ rest2) = none)
    (hend : matchAnnot rest2 = some cap) :
    scanItemText acc (t ++ rest2) = (acc.reverse ++ t, some cap) := by
  induction t generalizing acc with
  | nil => exact absurd rfl hne
  | cons c t' ih =>
    cases t' with
    | nil => simp [scanItemText, hend]
    | cons d t'' =>
      have h1 : matchAnnot ((d :: t'') ++ rest2) = none := by
        have := hmid 1 (le_refl 1) (by simp)
        simpa using this
      rw [List.cons_append, scanItemText, h1]
      rw [ih (c :: acc) (List.cons_ne_nil d t'') ?_]
      · simp
      · intro i hi hilen
        have := hmid (i + 1) (by omega) (by simp at hilen ⊢; omega)
        simpa using this

/-! ## Line-level parsing of serialized items -/

lemma matchCheckboxLine_pos (d : Char) (hd : d = ' ' ∨ d = 'x') (rest : List Char)
    (hne : rest ≠ []) :
    matchCheckboxLine ('-' :: ' ' :: '[' :: d :: ']' :: ' ' :: rest) =
      some (d == 'x', (scanItemText [] rest).1, (scanItemText [] rest).2) := by
  simp [matchCheckboxLine, hd, hne]

lemma goodText_last (t : List Char) (hg : GoodText t) :
    ∀ c, t.getLast? = some c → goIsSpace c = false := hg.2.2.1

lemma matchLine_no_annot (d : Char) (hd : d = ' ' ∨ d = 'x') (t : List Char)
    (hg : GoodText t) :
    matchCheckboxLine (goTrimSpace ('-' :: ' ' :: '[' :: d :: ']' :: ' ' :: t)) =
      some (d == 'x', t, none) := by
  have htrim : goTrimSpace ('-' :: ' ' :: '[' :: d :: ']' :: ' ' :: t) =
      '-' :: ' ' :: '[' :: d :: ']' :: ' ' :: t := by
    apply goTrimSpace_eq_self
    · intro c hc
      simp at hc
      subst hc
      decide
    · intro c hc
      apply goodText_last t hg c
      have : ('-' :: ' ' :: '[' :: d :: ']' :: ' ' :: t : List Char) =
          ['-', ' ', '[', d, ']', ' '] ++ t := rfl
      rw [this, List.getLast?_append_of_ne_nil _ hg.1] at hc
      exact hc
  rw [htrim, matchCheckboxLine_pos d hd t hg.1]
  rw [scanItemText_no_annot t []
    (fun i _ => matchAnnot_none_of_drop t i hg.2.2.2)]
  simp

lemma matchLine_with_annot (d : Char) (hd : d = ' ' ∨ d = 'x') (t : List Char)
    (hg : GoodText t) (F : List Char) (fh : Char) (ftl : List Char)
    (hF : F = fh :: ftl) (hhead : reIsSpace fh = false) :
    matchCheckboxLine (goTrimSpace ('-' :: ' ' :: '[' :: d :: ']' :: ' ' ::
        (t ++ ' ' :: '(' :: 'c' :: 'o' :: 'm' :: 'p' :: 'l' :: 'e' :: 't' ::
          'e' :: 'd' :: ':' :: ' ' :: (F ++ [')'])))) =
      some (d == 'x', t, some F) := by
  have hgl : ∀ c,
      ('-' :: ' ' :: '[' :: d :: ']' :: ' ' ::
        (t ++ ' ' :: '(' :: 'c' :: 'o' :: 'm' :: 'p' :: 'l' :: 'e' :: 't' ::
          'e' :: 'd' :: ':' :: ' ' :: (F ++ [')'])) : List Char).getLast? = some c →
      goIsSpace c = false := by
    intro c hc
    have he1 : ('-' :: ' ' :: '[' :: d :: ']' :: ' ' ::
        (t ++ ' ' :: '(' :: 'c' :: 'o' :: 'm' :: 'p' :: 'l' :: 'e' :: 't' ::
          'e' :: 'd' :: ':' :: ' ' :: (F ++ [')'])) : List Char) =
        (['-', ' ', '[', d, ']', ' '] ++ (t ++ ' ' :: '(' :: 'c' :: 'o' :: 'm' ::
          'p' :: 'l' :: 'e' :: 't' :: 'e' :: 'd' :: ':' :: ' ' :: F) ) ++ [')'] := by
      simp
    rw [he1, List.getLast?_concat] at hc
    have hc2 : c = ')' := (Option.some.inj hc).symm
    subst hc2
    decide
  have htrim : goTrimSpace ('-' :: ' ' :: '[' :: d :: ']' :: ' ' ::
      (t ++ ' ' :: '(' :: 'c' :: 'o' :: 'm' :: 'p' :: 'l' :: 'e' :: 't' ::
        'e' :: 'd' :: ':' :: ' ' :: (F ++ [')'])))  =
      '-' :: ' ' :: '[' :: d :: ']' :: ' ' ::
      (t ++ ' ' :: '(' :: 'c' :: 'o' :: 'm' :: 'p' :: 'l' :: 'e' :: 't' ::
        'e' :: 'd' :: ':' :: ' ' :: (F ++ [')'])) := by
    apply goTrimSpace_eq_self
    · intro c hc
      simp at hc
      subst hc
      decide
    · exact hgl
  rw [htrim]
  rw [matchCheckboxLine_pos d hd _ (by simp [hg.1])]
  rw [scanItemText_finds t _ [] F hg.1 ?_ ?_]
  · simp
  · intro i hi hilen
    exact matchAnnot_none_append_mid t i _ (goodText_last t hg) hg.2.2.2 hilen
  · exact matchAnnot_fmt F fh ftl hF hhead

/-! ## Each serialized line of a good item re-parses to the same fields -/

lemma formatItemLine_eq_body (it : TodoItem) :
    formatItemLine it = lineBody it ++ ['\n'] := by
  unfold formatItemLine lineBody
  cases hc : it.completed
  · simp [List.append_assoc]
  · cases ht : it.completedTime <;> simp [List.append_assoc]

lemma formatTimestamp_head (t : Timestamp) (ht : t.Valid) :
    ∃ ftl, formatTimestamp t = Nat.digitChar (t.year / 1000) :: ftl ∧
      reIsSpace (Nat.digitChar (t.year / 1000)) = false := by
  rw [formatTimestamp_eq t ht]
  obtain ⟨h1, h2, h3, h4, h5, h6, h7⟩ := ht
  exact ⟨_, rfl, digitChar_not_reIsSpace _ (by omega)⟩

lemma formatTimestamp_no_nl (t : Timestamp) (ht : t.Valid) :
    '\n' ∉ formatTimestamp t := by
  obtain ⟨h1, h2, h3, h4, h5, h6, h7⟩ := ht
  have hdl := daysIn_le_31 t.year t.month
  rw [formatTimestamp_eq t ⟨h1, h2, h3, h4, h5, h6, h7⟩]
  intro hm
  simp only [List.mem_cons, List.not_mem_nil, or_false] at hm
  rcases hm with h|h|h|h|h|h|h|h|h|h|h|h|h|h|h|h <;>
    first
      | (exact absurd h.symm (digitChar_ne_nl _ (by omega)))
      | (exact absurd h (by decide))

lemma matchLine_body (it : TodoItem) (hg : GoodItem it) :
    matchCheckboxLine (goTrimSpace (lineBody it)) =
      some (it.completed, it.text, it.completedTime.map formatTimestamp) := by
  obtain ⟨hgt, hinv, hval⟩ := hg
  cases hc : it.completed
  · have hbody : lineBody it = '-' :: ' ' :: '[' :: ' ' :: ']' :: ' ' :: it.text := by
      unfold lineBody
      rw [hc]
      simp
    rw [hbody, matchLine_no_annot ' ' (Or.inl rfl) it.text hgt]
    rw [hinv hc]
    rfl
  · cases ht : it.completedTime with
    | none =>
      have hbody : lineBody it = '-' :: ' ' :: '[' :: 'x' :: ']' :: ' ' :: it.text := by
        unfold lineBody
        rw [hc, ht]
        rfl
      rw [hbody, matchLine_no_annot 'x' (Or.inr rfl) it.text hgt]
      rfl
    | some ts =>
      obtain ⟨ftl, hfh, hsp⟩ := formatTimestamp_head ts (hval ts ht)
      have hbody : lineBody it = '-' :: ' ' :: '[' :: 'x' :: ']' :: ' ' ::
          (it.text ++ ' ' :: '(' :: 'c' :: 'o' :: 'm' :: 'p' :: 'l' :: 'e' :: 't' ::
            'e' :: 'd' :: ':' :: ' ' :: (formatTimestamp ts ++ [')'])) := by
        unfold lineBody
        rw [hc, ht]
        simp [List.append_assoc]
      rw [hbody, matchLine_with_annot 'x' (Or.inr rfl) it.text hgt
        (formatTimestamp ts) _ _ hfh hsp]
      rfl

/-! ## Scanning the serialized file -/

lemma lineBody_no_nl (it : TodoItem) (hg : GoodItem it) : '\n' ∉ lineBody it := by
  obtain ⟨⟨hne, hnl, hlast, hsub⟩, hinv, hval⟩ := hg
  intro hm
  cases hc : it.completed
  · have hb : lineBody it = "- [ ] ".data ++ it.text := by
      unfold lineBody
      rw [hc]
      simp
    rw [hb, List.mem_append] at hm
    rcases hm with h | h
    · exact absurd h (by decide)
    · exact hnl '\n' h rfl
  · cases ht : it.completedTime with
    | none =>
      have hb : lineBody it = "- [x] ".data ++ it.text := by
        unfold lineBody
        rw [hc, ht]
        simp
      rw [hb, List.mem_append] at hm
      rcases hm with h | h
      · exact absurd h (by decide)
      · exact hnl '\n' h rfl
    | some ts =>
      have hb : lineBody it = "- [x] ".data ++ (it.text ++ (" (completed: ".data ++
          (formatTimestamp ts ++ ")".data))) := by
        unfold lineBody
        rw [hc, ht]
        simp [List.append_assoc]
      rw [hb] at hm
      simp only [List.mem_append] at hm
      rcases hm with h | h | h | h | h
      · exact absurd h (by decide)
      · exact hnl '\n' h rfl
      · exact absurd h (by decide)
      · exact formatTimestamp_no_nl ts (hval ts ht) h
      · exact absurd h (by decide)

lemma lineBody_last_not_space (it : TodoItem) (hg : GoodItem it) :
    ∀ c, (lineBody it).getLast? = some c → goIsSpace c = false := by
  obtain ⟨⟨hne, hnl, hlast, hsub⟩, hinv, hval⟩ := hg
  intro c hc
  cases hcomp : it.completed
  · have hb : lineBody it = "- [ ] ".data ++ it.text := by
      unfold lineBody
      rw [hcomp]
      simp
    rw [hb, List.getLast?_append_of_ne_nil _ hne] at hc
    exact hlast c hc
  · cases ht : it.completedTime with
    | none =>
      have hb : lineBody it = "- [x] ".data ++ it.text := by
        unfold lineBody
        rw [hcomp, ht]
        simp
      rw [hb, List.getLast?_append_of_ne_nil _ hne] at hc
      exact hlast c hc
    | some ts =>
      have hb : lineBody it = ("- [x] ".data ++ it.text ++ " (completed: ".data ++
          formatTimestamp ts) ++ [')'] := by
        unfold lineBody
        rw [hcomp, ht]
        simp [List.append_assoc]
      rw [hb, List.getLast?_concat] at hc
      have hc2 : c = ')' := (Option.some.inj hc).symm
      subst hc2
      decide

lemma dropCR_lineBody (it : TodoItem) (hg : GoodItem it) :
    dropCR (lineBody it) = lineBody it := by
  apply dropCR_eq_self
  intro hcr
  have := lineBody_last_not_space it hg '\r' hcr
  exact absurd this (by decide)

lemma scanLines_flatten_bodies (items : List TodoItem)
    (hgood : ∀ it ∈ items, GoodItem it) :
    scanLines ((items.map formatItemLine).flatten) = items.map lineBody := by
  induction items with
  | nil => rfl
  | cons it rest ih =>
    have hgit : GoodItem it := hgood it (List.mem_cons_self _ _)
    have hrest : ∀ x ∈ rest, GoodItem x := fun x hx => hgood x (List.mem_cons_of_mem _ hx)
    rw [List.map_cons, List.flatten_cons, formatItemLine_eq_body it]
    have : lineBody it ++ ['\n'] ++ (rest.map formatItemLine).flatten =
        lineBody it ++ '\n' :: (rest.map formatItemLine).flatten := by
      simp
    rw [this, scanLines_append _ _ (lineBody_no_nl it hgit), dropCR_lineBody it hgit,
      ih hrest, List.map_cons]

/-- Decomposition of a written file into its scanned lines: the header line
(starting with `#`), the blank line, then the item lines. -/
lemma scanLines_write (branch : List Char) (hbr : '\n' ∉ branch)
    (items : List TodoItem) :
    ∃ s, scanLines (WriteTodoContent branch items) =
      ('#' :: s) :: [] :: scanLines ((items.map formatItemLine).flatten) := by
  have hnl : '\n' ∉ "# Todo List for ".data ++ branch := by
    intro hm
    rcases List.mem_append.mp hm with h1 | h2
    · exact absurd h1 (by decide)
    · exact hbr h2
  have hshape : WriteTodoContent branch items =
      ("# Todo List for ".data ++ branch) ++
        '\n' :: ('\n' :: (items.map formatItemLine).flatten) := by
    rw [WriteTodoContent_eq]
    simp
  obtain ⟨s, hs⟩ : ∃ s, dropCR ("# Todo List for ".data ++ branch) = '#' :: s := by
    show ∃ s, dropCR ('#' :: (" Todo List for ".data ++ branch)) = '#' :: s
    exact dropCR_cons _ _ (by simp)
  refine ⟨s, ?_⟩
  rw [hshape, scanLines_append _ _ hnl, hs]
  have : ('\n' :: (items.map formatItemLine).flatten : List Char) =
      [] ++ '\n' :: (items.map formatItemLine).flatten := rfl
  rw [this, scanLines_append _ _ (by simp)]
  rfl

/-! ## C1: the serialize/parse round trip -/

lemma parseLines_bodies_proj (items : List TodoItem) (n : Int)
    (hgood : ∀ it ∈ items, GoodItem it) :
    (parseLines n (items.map lineBody)).map
        (fun it => (it.text, it.completed, it.completedTime)) =
      items.map (fun it => (it.text, it.completed, it.completedTime)) := by
  induction items generalizing n with
  | nil => rfl
  | cons it rest ih =>
    have hgit : GoodItem it := hgood it (List.mem_cons_self _ _)
    have hrest : ∀ x ∈ rest, GoodItem x := fun x hx => hgood x (List.mem_cons_of_mem _ hx)
    rw [List.map_cons, parseLines, matchLine_body it hgit]
    rw [List.map_cons, List.map_cons, ih (n + 1) hrest]
    congr 1
    unfold itemFromMatch
    cases hc : it.completed
    · simp only [hc]
      rw [hgit.2.1 hc]
      simp [hgit.2.1 hc]
    · cases ht : it.completedTime with
      | none => simp [hc, ht]
      | some ts =>
        simp only [hc, ht, if_true]
        show (it.text, true, parseTimestamp (formatTimestamp ts)) =
          (it.text, true, some ts)
        rw [parseTimestamp_formatTimestamp ts (hgit.2.2 ts ht)]

/-- C1 (amended): for any list name without a newline and any items whose
texts are nonempty, newline-free, do not end in whitespace and do not
contain `(completed:`, whose pending items carry no completion time, and
whose completion times are valid calendar timestamps, parsing the
serialized file reproduces every item's text, completed flag and
completion time in order, with IDs recomputed densely from 1. -/
theorem c1_roundtrip (name : String) (items : List TodoItem)
    (hname : '\n' ∉ name.data) (hgood : ∀ it ∈ items, GoodItem it) :
    (ParseTodoFileContent (WriteTodoFileContent name items)).map
        (fun it => (it.text, it.completed, it.completedTime)) =
      items.map (fun it => (it.text, it.completed, it.completedTime)) ∧
    ∀ (i : Nat) (h : i < (ParseTodoFileContent (WriteTodoFileContent name items)).length),
      ((ParseTodoFileContent (WriteTodoFileContent name items)).get ⟨i, h⟩).id =
        (i : Int) + 1 := by
  obtain ⟨s, hs⟩ := scanLines_write name.data hname items
  have hred : ParseTodoFileContent (WriteTodoFileContent name items) =
      parseLines 1 (scanLines (WriteTodoContent name.data items)) := rfl
  have hskip : parseLines 1 (scanLines (WriteTodoContent name.data items)) =
      parseLines 1 (items.map lineBody) := by
    rw [hs, scanLines_flatten_bodies items hgood]
    simp only [parseLines, matchCheckboxLine_header s, matchCheckboxLine_blank]
  constructor
  · rw [hred, hskip]
    exact parseLines_bodies_proj items 1 hgood
  · intro i h
    have h' : i < (parseLines 1 (scanLines (WriteTodoContent name.data items))).length := by
      rw [← hred]
      exact h
    have := parseLines_id_dense (scanLines (WriteTodoContent name.data items)) 1 i h'
    calc ((ParseTodoFileContent (WriteTodoFileContent name items)).get ⟨i, h⟩).id
        = 1 + (i : Int) := this
      _ = (i : Int) + 1 := by ring

theorem c1_roundtrip_check :
    (ParseTodoFileContent (WriteTodoFileContent "demo"
        [{ id := 1, text := "A".data, completed := false, completedTime := none },
         { id := 2, text := "B".data, completed := true,
           completedTime := some ⟨2024, 1, 15, 10, 30⟩ }])).map
        (fun it => (it.text, it.completed, it.completedTime)) =
      ([{ id := 1, text := "A".data, completed := false, completedTime := none },
        { id := 2, text := "B".data, completed := true,
          completedTime := some ⟨2024, 1, 15, 10, 30⟩ }] : List TodoItem).map
        (fun it => (it.text, it.completed, it.completedTime)) ∧
    ∀ (i : Nat) (h : i < (ParseTodoFileContent (WriteTodoFileContent "demo"
        [{ id := 1, text := "A".data, completed := false, completedTime := none },
         { id := 2, text := "B".data, completed := true,
           completedTime := some ⟨2024, 1, 15, 10, 30⟩ }])).length),
      ((ParseTodoFileContent (WriteTodoFileContent "demo"
        [{ id := 1, text := "A".data, completed := false, completedTime := none },
         { id := 2, text := "B".data, completed := true,
           completedTime := some ⟨2024, 1, 15, 10, 30⟩ }])).get ⟨i, h⟩).id =
        (i : Int) + 1 :=
  c1_roundtrip "demo"
    [{ id := 1, text := "A".data, completed := false, completedTime := none },
     { id := 2, text := "B".data, completed := true,
       completedTime := some ⟨2024, 1, 15, 10, 30⟩ }] (by decide) (by decide)

/-- C1 counterexample: the round trip fails as originally stated.  Every
text below is newline-free and none is itself a checkbox line with a
timestamp suffix (none even matches the checkbox pattern), yet the
round trip changes the items: a trailing space is trimmed away, an empty
text drops its item, an embedded `(completed: b)` suffix is stripped, a
pending item's completion time is not serialized, and a five-digit year
formats to a string `time.Parse` rejects. -/
theorem c1_roundtrip_counterexample :
    (∀ it ∈ ([{ id := 1, text := "A ".data, completed := false, completedTime := none },
              { id := 2, text := [], completed := false, completedTime := none },
              { id := 3, text := "a (completed: b)".data, completed := false,
                completedTime := none },
              { id := 4, text := "ok".data, completed := false,
                completedTime := some ⟨2024, 1, 15, 10, 30⟩ },
              { id := 5, text := "fine".data, completed := true,
                completedTime := some ⟨10000, 1, 15, 10, 30⟩ }] : List TodoItem),
      (∀ c ∈ it.text, c ≠ '\n') ∧
      (∀ m, matchCheckboxLine it.text = some m → m.2.2 = none)) ∧
    (ParseTodoFileContent (WriteTodoFileContent "demo"
        [{ id := 1, text := "A ".data, completed := false, completedTime := none },
         { id := 2, text := [], completed := false, completedTime := none },
         { id := 3, text := "a (completed: b)".data, completed := false,
           completedTime := none },
         { id := 4, text := "ok".data, completed := false,
           completedTime := some ⟨2024, 1, 15, 10, 30⟩ },
         { id := 5, text := "fine".data, completed := true,
           completedTime := some ⟨10000, 1, 15, 10, 30⟩ }])).map
        (fun it => (it.text, it.completed, it.completedTime)) ≠
      ([{ id := 1, text := "A ".data, completed := false, completedTime := none },
        { id := 2, text := [], completed := false, completedTime := none },
        { id := 3, text := "a (completed: b)".data, completed := false,
          completedTime := none },
        { id := 4, text := "ok".data, completed := false,
          completedTime := some ⟨2024, 1, 15, 10, 30⟩ },
        { id := 5, text := "fine".data, completed := true,
          completedTime := some ⟨10000, 1, 15, 10, 30⟩ }] : List TodoItem).map
        (fun it => (it.text, it.completed, it.completedTime)) := by
  constructor
  · decide
  · decide

/-! ## C10: the annotation is stripped from unchecked lines -/

lemma scanLinesAux_no_nl (acc l : List Char) (hnl : '\n' ∉ l) :
    scanLinesAux acc l = [dropCR (acc.reverse ++ l)] := by
  induction l generalizing acc with
  | nil => simp [scanLinesAux]
  | cons c t ih =>
    have hc : c ≠ '\n' := fun hcc => hnl (by simp [hcc])
    have ht : '\n' ∉ t := fun hm => hnl (List.mem_cons_of_mem _ hm)
    simp only [scanLinesAux, if_neg hc]
    rw [ih (c :: acc) ht]
    simp

lemma scanLines_single (l : List Char) (hne : l ≠ []) (hnl : '\n' ∉ l) :
    scanLines l = [dropCR l] := by
  cases l with
  | nil => exact absurd rfl hne
  | cons c t =>
    show scanLinesAux [] (c :: t) = _
    rw [scanLinesAux_no_nl [] (c :: t) hnl]
    simp

lemma matchLine_with_annot_any (d : Char) (hd : d = ' ' ∨ d = 'x') (t : List Char)
    (hg : GoodText t) (ts : List Char) (hts : ts ≠ []) :
    ∃ cap, matchCheckboxLine (goTrimSpace ('-' :: ' ' :: '[' :: d :: ']' :: ' ' ::
        (t ++ ' ' :: '(' :: 'c' :: 'o' :: 'm' :: 'p' :: 'l' :: 'e' :: 't' ::
          'e' :: 'd' :: ':' :: ' ' :: (ts ++ [')'])))) =
      some (d == 'x', t, some cap) := by
  have hgl : ∀ c,
      ('-' :: ' ' :: '[' :: d :: ']' :: ' ' ::
        (t ++ ' ' :: '(' :: 'c' :: 'o' :: 'm' :: 'p' :: 'l' :: 'e' :: 't' ::
          'e' :: 'd' :: ':' :: ' ' :: (ts ++ [')'])) : List Char).getLast? = some c →
      goIsSpace c = false := by
    intro c hc
    have he1 : ('-' :: ' ' :: '[' :: d :: ']' :: ' ' ::
        (t ++ ' ' :: '(' :: 'c' :: 'o' :: 'm' :: 'p' :: 'l' :: 'e' :: 't' ::
          'e' :: 'd' :: ':' :: ' ' :: (ts ++ [')'])) : List Char) =
        (['-', ' ', '[', d, ']', ' '] ++ (t ++ ' ' :: '(' :: 'c' :: 'o' :: 'm' ::
          'p' :: 'l' :: 'e' :: 't' :: 'e' :: 'd' :: ':' :: ' ' :: ts)) ++ [')'] := by
      simp
    rw [he1, List.getLast?_concat] at hc
    have hc2 : c = ')' := (Option.some.inj hc).symm
    subst hc2
    decide
  have htrim : goTrimSpace ('-' :: ' ' :: '[' :: d :: ']' :: ' ' ::
      (t ++ ' ' :: '(' :: 'c' :: 'o' :: 'm' :: 'p' :: 'l' :: 'e' :: 't' ::
        'e' :: 'd' :: ':' :: ' ' :: (ts ++ [')'])))  =
      '-' :: ' ' :: '[' :: d :: ']' :: ' ' ::
      (t ++ ' ' :: '(' :: 'c' :: 'o' :: 'm' :: 'p' :: 'l' :: 'e' :: 't' ::
        'e' :: 'd' :: ':' :: ' ' :: (ts ++ [')'])) := by
    apply goTrimSpace_eq_self
    · intro c hc
      simp at hc
      subst hc
      decide
    · exact hgl
  rw [htrim]
  rw [matchCheckboxLine_pos d hd _ (by simp [hg.1])]
  rw [scanItemText_finds t _ [] _ hg.1 ?_ (matchAnnot_space_key ts hts)]
  · exact ⟨_, rfl⟩
  · intro i hi hilen
    exact matchAnnot_none_append_mid t i _ (goodText_last t hg) hg.2.2.2 hilen

/-- C10: a line `- [ ] text (completed: ts)` — an unchecked checkbox with a
completion annotation — parses to a pending item with no completion time
whose text is `text` with the annotation stripped, and the next rewrite of
the file therefore drops the annotation from disk. -/
theorem c10_unchecked_annot_stripped (t ts : List Char) (hg : GoodText t)
    (hts : ts ≠ []) (htsnl : '\n' ∉ ts) :
    ParseTodoContent ("- [ ] ".data ++ t ++ " (completed: ".data ++ ts ++ ")".data) =
      [{ id := 1, text := t, completed := false, completedTime := none }] ∧
    ∀ b, WriteTodoContent b
        (ParseTodoContent ("- [ ] ".data ++ t ++ " (completed: ".data ++ ts ++ ")".data)) =
      CreateTodoContent b ++ ("- [ ] ".data ++ t ++ ['\n']) := by
  have hshape : ("- [ ] ".data ++ t ++ " (completed: ".data ++ ts ++ ")".data : List Char) =
      '-' :: ' ' :: '[' :: ' ' :: ']' :: ' ' ::
        (t ++ ' ' :: '(' :: 'c' :: 'o' :: 'm' :: 'p' :: 'l' :: 'e' :: 't' ::
          'e' :: 'd' :: ':' :: ' ' :: (ts ++ [')'])) := by
    simp [List.append_assoc]
  have hnl : '\n' ∉ ("- [ ] ".data ++ t ++ " (completed: ".data ++ ts ++ ")".data : List Char) := by
    intro hm
    simp only [List.append_assoc, List.mem_append] at hm
    rcases hm with h | h | h | h | h
    · exact absurd h (by decide)
    · exact hg.2.1 '\n' h rfl
    · exact absurd h (by decide)
    · exact htsnl h
    · exact absurd h (by decide)
  have hone : ParseTodoContent ("- [ ] ".data ++ t ++ " (completed: ".data ++ ts ++ ")".data) =
      [{ id := 1, text := t, completed := false, completedTime := none }] := by
    unfold ParseTodoContent
    rw [scanLines_single _ (by simp) hnl]
    have hdcr : dropCR ("- [ ] ".data ++ t ++ " (completed: ".data ++ ts ++ ")".data) =
        "- [ ] ".data ++ t ++ " (completed: ".data ++ ts ++ ")".data := by
      apply dropCR_eq_self
      rw [hshape]
      intro hc
      have he1 : ('-' :: ' ' :: '[' :: ' ' :: ']' :: ' ' ::
          (t ++ ' ' :: '(' :: 'c' :: 'o' :: 'm' :: 'p' :: 'l' :: 'e' :: 't' ::
            'e' :: 'd' :: ':' :: ' ' :: (ts ++ [')'])) : List Char) =
          (['-', ' ', '[', ' ', ']', ' '] ++ (t ++ ' ' :: '(' :: 'c' :: 'o' :: 'm' ::
            'p' :: 'l' :: 'e' :: 't' :: 'e' :: 'd' :: ':' :: ' ' :: ts)) ++ [')'] := by
        simp
      rw [he1, List.getLast?_concat] at hc
      have : (')' : Char) = '\r' := Option.some.inj hc
      exact absurd this (by decide)
    rw [hdcr, hshape]
    obtain ⟨cap, hcap⟩ := matchLine_with_annot_any ' ' (Or.inl rfl) t hg ts hts
    rw [parseLines, hcap]
    rfl
  refine ⟨hone, ?_⟩
  intro b
  rw [hone, WriteTodoContent_eq]
  unfold CreateTodoContent
  simp [formatItemLine, List.append_assoc]

theorem c10_unchecked_annot_stripped_check :
    ParseTodoContent ("- [ ] ".data ++ "task".data ++ " (completed: ".data ++
        "2024-01-15 10:30".data ++ ")".data) =
      [{ id := 1, text := "task".data, completed := false, completedTime := none }] ∧
    ∀ b, WriteTodoContent b
        (ParseTodoContent ("- [ ] ".data ++ "task".data ++ " (completed: ".data ++
          "2024-01-15 10:30".data ++ ")".data)) =
      CreateTodoContent b ++ ("- [ ] ".data ++ "task".data ++ ['\n']) :=
  c10_unchecked_annot_stripped "task".data "2024-01-15 10:30".data
    (by decide) (by decide) (by decide)

/-! ## C8: check, uncheck, re-check on the first item -/

lemma itemFromMatch_good (n : Int) (it : TodoItem) (hg : GoodItem it) :
    itemFromMatch n it.completed it.text (it.completedTime.map formatTimestamp) =
      { id := n, text := it.text, completed := it.completed,
        completedTime := it.completedTime } := by
  unfold itemFromMatch
  cases hc : it.completed
  · rw [hg.2.1 hc]
    simp
  · cases ht : it.completedTime with
    | none => simp
    | some ts =>
      simp only [if_true]
      show TodoItem.mk n it.text true (parseTimestamp (formatTimestamp ts)) = _
      rw [parseTimestamp_formatTimestamp ts (hg.2.2 ts ht)]

lemma parse_write_cons (branch : List Char) (hbr : '\n' ∉ branch) (it : TodoItem)
    (rest : List TodoItem) (hg : GoodItem it) :
    ∃ tail, ParseTodoContent (WriteTodoContent branch (it :: rest)) =
      { id := 1, text := it.text, completed := it.completed,
        completedTime := it.completedTime } :: tail := by
  obtain ⟨s, hs⟩ := scanLines_write branch hbr (it :: rest)
  unfold ParseTodoContent
  rw [hs]
  simp only [parseLines, matchCheckboxLine_header s, matchCheckboxLine_blank]
  rw [List.map_cons, List.flatten_cons, formatItemLine_eq_body it]
  have hassoc : lineBody it ++ ['\n'] ++ (rest.map formatItemLine).flatten =
      lineBody it ++ '\n' :: (rest.map formatItemLine).flatten := by
    simp
  rw [hassoc, scanLines_append _ _ (lineBody_no_nl it hg), dropCR_lineBody it hg]
  refine ⟨parseLines (1 + 1) (scanLines (rest.map formatItemLine).flatten), ?_⟩
  simp only [parseLines, matchLine_body it hg]
  rw [itemFromMatch_good 1 it hg]

lemma checkTodoItem_cons (now : Timestamp) (branch : List Char)
    (fs : Option (List Char)) (it : TodoItem) (rest : List TodoItem)
    (h : (ParseTodoFile fs).Items = it :: rest) :
    CheckTodoItem now branch 1 fs =
      (some (WriteTodoContent branch
        ({ id := it.id, text := it.text, completed := true,
           completedTime := some now } :: rest)), none) := by
  have hb : ¬((1 : Int) < 1 ∨ (1 : Int) > ((ParseTodoFile fs).Items.length : Int)) := by
    rw [h]
    simp
  unfold CheckTodoItem
  rw [if_neg hb, h]
  rfl

lemma uncheckTodoItem_cons (branch : List Char)
    (fs : Option (List Char)) (it : TodoItem) (rest : List TodoItem)
    (h : (ParseTodoFile fs).Items = it :: rest) :
    UncheckTodoItem branch 1 fs =
      (some (WriteTodoContent branch
        ({ id := it.id, text := it.text, completed := false,
           completedTime := none } :: rest)), none) := by
  have hb : ¬((1 : Int) < 1 ∨ (1 : Int) > ((ParseTodoFile fs).Items.length : Int)) := by
    rw [h]
    simp
  unfold UncheckTodoItem
  rw [if_neg hb, h]
  rfl

/-- C8 (amended): on a list whose first item has good text (nonempty,
newline-free, not ending in whitespace, not containing `(completed:`),
with valid clock readings `now1 ≤ now2` and a newline-free branch name:
check(1) then uncheck(1) succeeds and restores item 1 on disk to
`completed = false` with no completion time, and the subsequent check(1)
succeeds and stores the fresh reading `now2`, which is no earlier than
`now1`. -/
theorem c8_check_uncheck_recheck (branch : List Char) (fs0 : Option (List Char))
    (now1 now2 : Timestamp) (it0 : TodoItem) (rest0 : List TodoItem)
    (hv1 : now1.Valid) (hv2 : now2.Valid) (hle : tsLe now1 now2)
    (hbr : '\n' ∉ branch)
    (hparse : (ParseTodoFile fs0).Items = it0 :: rest0)
    (hgt : GoodText it0.text) :
    (CheckTodoItem now1 branch 1 fs0).2 = none ∧
    (UncheckTodoItem branch 1 (CheckTodoItem now1 branch 1 fs0).1).2 = none ∧
    (ParseTodoFile (UncheckTodoItem branch 1 (CheckTodoItem now1 branch 1 fs0).1).1).Items.head? =
      some { id := 1, text := it0.text, completed := false, completedTime := none } ∧
    (CheckTodoItem now2 branch 1
      (UncheckTodoItem branch 1 (CheckTodoItem now1 branch 1 fs0).1).1).2 = none ∧
    (ParseTodoFile (CheckTodoItem now2 branch 1
      (UncheckTodoItem branch 1 (CheckTodoItem now1 branch 1 fs0).1).1).1).Items.head? =
      some { id := 1, text := it0.text, completed := true, completedTime := some now2 } ∧
    tsLe now1 now2 := by
  have hstep1 := checkTodoItem_cons now1 branch fs0 it0 rest0 hparse
  have hg1 : GoodItem ⟨it0.id, it0.text, true, some now1⟩ := by
    refine ⟨hgt, by simp, ?_⟩
    intro t ht
    have heq : now1 = t := Option.some.inj ht
    rw [← heq]
    exact hv1
  obtain ⟨tail1, htail1⟩ := parse_write_cons branch hbr _ rest0 hg1
  have hitems1 : (ParseTodoFile (CheckTodoItem now1 branch 1 fs0).1).Items =
      { id := 1, text := it0.text, completed := true,
        completedTime := some now1 } :: tail1 := by
    rw [hstep1]
    exact htail1
  have hstep2 := uncheckTodoItem_cons branch (CheckTodoItem now1 branch 1 fs0).1
    _ tail1 hitems1
  have hg2 : GoodItem ⟨1, it0.text, false, none⟩ :=
    ⟨hgt, fun _ => rfl, fun t ht => by cases ht⟩
  obtain ⟨tail2, htail2⟩ := parse_write_cons branch hbr _ tail1 hg2
  have hitems2 : (ParseTodoFile (UncheckTodoItem branch 1
      (CheckTodoItem now1 branch 1 fs0).1).1).Items =
      { id := 1, text := it0.text, completed := false,
        completedTime := none } :: tail2 := by
    rw [hstep2]
    exact htail2
  have hstep3 := checkTodoItem_cons now2 branch
    (UncheckTodoItem branch 1 (CheckTodoItem now1 branch 1 fs0).1).1 _ tail2 hitems2
  have hg3 : GoodItem ⟨1, it0.text, true, some now2⟩ := by
    refine ⟨hgt, by simp, ?_⟩
    intro t ht
    have heq : now2 = t := Option.some.inj ht
    rw [← heq]
    exact hv2
  obtain ⟨tail3, htail3⟩ := parse_write_cons branch hbr _ tail2 hg3
  have hitems3 : (ParseTodoFile (CheckTodoItem now2 branch 1
      (UncheckTodoItem branch 1 (CheckTodoItem now1 branch 1 fs0).1).1).1).Items =
      { id := 1, text := it0.text, completed := true,
        completedTime := some now2 } :: tail3 := by
    rw [hstep3]
    exact htail3
  refine ⟨by rw [hstep1], by rw [hstep2], ?_, by rw [hstep3], ?_, hle⟩
  · rw [hitems2]
    rfl
  · rw [hitems3]
    rfl

theorem c8_check_uncheck_recheck_check :
    (CheckTodoItem ⟨2024, 1, 15, 10, 30⟩ "b".data 1
      (some "- [ ] task one\n".data)).2 = none ∧
    (UncheckTodoItem "b".data 1 (CheckTodoItem ⟨2024, 1, 15, 10, 30⟩ "b".data 1
      (some "- [ ] task one\n".data)).1).2 = none ∧
    (ParseTodoFile (UncheckTodoItem "b".data 1 (CheckTodoItem ⟨2024, 1, 15, 10, 30⟩
      "b".data 1 (some "- [ ] task one\n".data)).1).1).Items.head? =
      some { id := 1, text := "task one".data, completed := false,
             completedTime := none } ∧
    (CheckTodoItem ⟨2024, 1, 15, 11, 0⟩ "b".data 1
      (UncheckTodoItem "b".data 1 (CheckTodoItem ⟨2024, 1, 15, 10, 30⟩ "b".data 1
        (some "- [ ] task one\n".data)).1).1).2 = none ∧
    (ParseTodoFile (CheckTodoItem ⟨2024, 1, 15, 11, 0⟩ "b".data 1
      (UncheckTodoItem "b".data 1 (CheckTodoItem ⟨2024, 1, 15, 10, 30⟩ "b".data 1
        (some "- [ ] task one\n".data)).1).1).1).Items.head? =
      some { id := 1, text := "task one".data, completed := true,
             completedTime := some ⟨2024, 1, 15, 11, 0⟩ } ∧
    tsLe ⟨2024, 1, 15, 10, 30⟩ ⟨2024, 1, 15, 11, 0⟩ :=
  c8_check_uncheck_recheck "b".data (some "- [ ] task one\n".data)
    ⟨2024, 1, 15, 10, 30⟩ ⟨2024, 1, 15, 11, 0⟩
    { id := 1, text := "task one".data, completed := false, completedTime := none } []
    (by decide) (by decide) (by decide) (by decide) (by decide) (by decide)

/-- C8 counterexample: the sequence fails as originally stated on a real
list with one item.  The file holds the line `- [ ]   (completed: x)`;
its item's text is the single space the lazy group captured before the
annotation.  Check(1) succeeds; uncheck(1) rewrites the line as `- [ ]  `,
which trims to `- [ ]` and no longer matches the checkbox pattern, so the
item vanishes and the second check(1) fails with InvalidID instead of
assigning a fresh completion time. -/
theorem c8_counterexample :
    (ParseTodoFile (some "- [ ]   (completed: x)\n".data)).Items.length = 1 ∧
    (CheckTodoItem ⟨2024, 1, 15, 10, 30⟩ "b".data 1
      (some "- [ ]   (completed: x)\n".data)).2 = none ∧
    (UncheckTodoItem "b".data 1 (CheckTodoItem ⟨2024, 1, 15, 10, 30⟩ "b".data 1
      (some "- [ ]   (completed: x)\n".data)).1).2 = none ∧
    (CheckTodoItem ⟨2024, 1, 15, 11, 0⟩ "b".data 1
      (UncheckTodoItem "b".data 1 (CheckTodoItem ⟨2024, 1, 15, 10, 30⟩ "b".data 1
        (some "- [ ]   (completed: x)\n".data)).1).1).2 =
      some (TodoError.invalidID 1) := by
  refine ⟨by decide, by decide, by decide, by decide⟩
